import Mathlib

/-!
Verification of the Cinetica kinematics engine.

Shallow embedding of the motion classes from `src/cinetica/cinematica/`:
rectilinear uniform (MRU), rectilinear uniformly accelerated (MRUV),
circular uniform (MCU), circular uniformly accelerated (MCUV), spatial
3D motion and composite harmonic motion, together with the unit layer
and the inverse-time solver that the spec describes.

Python floats are embedded as real numbers; a function that raises
`ValueError` is embedded as a function into `Except Err _`.  Where the
Python class body defines a method twice, the later (effective)
definition is the one embedded.
-/

/-- Error kinds raised by the engine (Python raises `ValueError` with a
distinguishing message; the spec classifies them into these kinds). -/
inductive Err where
  | invalidTime
  | invalidInput
  | noRealSolution
  | negativeTime
  | unreachable
deriving DecidableEq, Repr

/-- `MovimientoRectilineoUniforme`: initial position and velocity
(`movimiento_rectilineo_uniforme.py`, `__init__`). -/
structure MRU where
  posicion_inicial : ℝ
  velocidad_inicial : ℝ

/-- `MovimientoRectilineoUniforme.posicion`: raises when `tiempo < 0`,
else returns `x0 + v0*t`. -/
noncomputable def MRU.posicion (m : MRU) (tiempo : ℝ) : Except Err ℝ :=
  if tiempo < 0 then .error .invalidTime
  else .ok (m.posicion_inicial + m.velocidad_inicial * tiempo)

/-- `MovimientoRectilineoUniforme.velocidad`: constant, no time check. -/
def MRU.velocidad (m : MRU) (_tiempo : ℝ) : ℝ :=
  m.velocidad_inicial

/-- `MovimientoRectilineoUniforme.aceleracion`: always zero. -/
def MRU.aceleracion (_m : MRU) (_tiempo : ℝ) : ℝ :=
  0.0

/-- `MovimientoRectilineoUniformementeVariado`: initial position,
velocity and acceleration. -/
structure MRUV where
  posicion_inicial : ℝ
  velocidad_inicial : ℝ
  aceleracion_inicial : ℝ

/-- `MovimientoRectilineoUniformementeVariado.posicion` (effective later
definition in the class body): raises when `tiempo < 0`, else
`x0 + v0*t + 0.5*a*t^2`. -/
noncomputable def MRUV.posicion (m : MRUV) (tiempo : ℝ) : Except Err ℝ :=
  if tiempo < 0 then .error .invalidTime
  else .ok (m.posicion_inicial + m.velocidad_inicial * tiempo +
      0.5 * m.aceleracion_inicial * tiempo ^ 2)

/-- `MovimientoRectilineoUniformementeVariado.velocidad` (effective later
definition): raises when `tiempo < 0`, else `v0 + a*t`. -/
noncomputable def MRUV.velocidad (m : MRUV) (tiempo : ℝ) : Except Err ℝ :=
  if tiempo < 0 then .error .invalidTime
  else .ok (m.velocidad_inicial + m.aceleracion_inicial * tiempo)

/-- `MovimientoRectilineoUniformementeVariado.aceleracion`: the stored
constant, no time check. -/
def MRUV.aceleracion (m : MRUV) (_tiempo : ℝ) : ℝ :=
  m.aceleracion_inicial

/-- `MovimientoRectilineoUniformementeVariado.velocidad_sin_tiempo`:
`v² = v0² + 2·a·Δx`; raises when `v² < 0`; else returns `√(v²)` with the
sign of `v0 + a·(posicion − x0)` (note the displacement, not a time, in
the sign test — embedded literally from the source). -/
noncomputable def MRUV.velocidad_sin_tiempo (m : MRUV) (posicion : ℝ) : Except Err ℝ :=
  let delta_x := posicion - m.posicion_inicial
  let v_squared := m.velocidad_inicial ^ 2 + 2 * m.aceleracion_inicial * delta_x
  if v_squared < 0 then .error .noRealSolution
  else .ok (Real.sqrt v_squared *
      (if m.velocidad_inicial + m.aceleracion_inicial * (posicion - m.posicion_inicial) ≥ 0
        then 1 else -1))

/-- C2: the uniform-rectilinear code rejects negative time in `posicion`
(raising `ValueError`), contradicting the repository's own unit test
`test_mru_negative_time_behavior`, which expects extrapolation into the
past; `velocidad` does return the constant `v0` for every `t`. -/
theorem mru_posicion_rejects_negative_time :
    MRU.posicion ⟨10, 5⟩ (-1) = .error .invalidTime ∧
    MRU.velocidad ⟨10, 5⟩ (-1) = 5 ∧
    (∀ m : MRU, ∀ t : ℝ, MRU.velocidad m t = m.velocidad_inicial) := by
  refine ⟨?_, rfl, fun m t => rfl⟩
  simp [MRU.posicion]

/-- C5: accelerated rectilinear forward evaluation raises exactly when
the time is negative; for nonnegative time `posicion` is
`x0 + v0·t + ½a·t²` and `velocidad` is `v0 + a·t`; `aceleracion` is the
stored constant for every time. -/
theorem mruv_forward_eval (m : MRUV) (s t : ℝ) (hs : s < 0) (ht : 0 ≤ t) :
    m.posicion s = .error .invalidTime ∧
    m.velocidad s = .error .invalidTime ∧
    m.posicion t = .ok (m.posicion_inicial + m.velocidad_inicial * t +
      (1 / 2) * m.aceleracion_inicial * t ^ 2) ∧
    m.velocidad t = .ok (m.velocidad_inicial + m.aceleracion_inicial * t) ∧
    (∀ u : ℝ, m.aceleracion u = m.aceleracion_inicial) := by
  have ht' : ¬ t < 0 := not_lt.mpr ht
  refine ⟨?_, ?_, ?_, ?_, fun u => rfl⟩
  · simp [MRUV.posicion, hs]
  · simp [MRUV.velocidad, hs]
  · rw [MRUV.posicion, if_neg ht']
    norm_num
  · simp [MRUV.velocidad, ht']

/-- C5 witness: concrete evaluation at `s = -1`, `t = 2` for
`x0 = 1, v0 = 2, a = 3`. -/
theorem mruv_forward_eval_witness :
    MRUV.posicion ⟨1, 2, 3⟩ 2 = .ok (1 + 2 * 2 + (1 / 2) * 3 * 2 ^ 2) ∧
    MRUV.posicion ⟨1, 2, 3⟩ (-1) = .error .invalidTime := by
  have h := mruv_forward_eval ⟨1, 2, 3⟩ (-1) 2 (by norm_num) (by norm_num)
  exact ⟨h.2.2.1, h.1⟩

/-- C3: `velocidad_sin_tiempo` fails with `NoRealSolution` exactly when
`v² = v0² + 2a·Δx` is negative; otherwise it returns `√(v²)` with
positive sign when `v0 + a·Δx ≥ 0` and negative sign otherwise, and any
returned value `v` satisfies `v² = v0² + 2a·Δx`. -/
theorem mruv_velocidad_sin_tiempo_spec (m : MRUV) (p : ℝ) :
    (m.velocidad_inicial ^ 2 + 2 * m.aceleracion_inicial * (p - m.posicion_inicial) < 0 →
      m.velocidad_sin_tiempo p = .error .noRealSolution) ∧
    (0 ≤ m.velocidad_inicial ^ 2 + 2 * m.aceleracion_inicial * (p - m.posicion_inicial) →
      0 ≤ m.velocidad_inicial + m.aceleracion_inicial * (p - m.posicion_inicial) →
      m.velocidad_sin_tiempo p =
        .ok (Real.sqrt (m.velocidad_inicial ^ 2 +
          2 * m.aceleracion_inicial * (p - m.posicion_inicial)))) ∧
    (0 ≤ m.velocidad_inicial ^ 2 + 2 * m.aceleracion_inicial * (p - m.posicion_inicial) →
      m.velocidad_inicial + m.aceleracion_inicial * (p - m.posicion_inicial) < 0 →
      m.velocidad_sin_tiempo p =
        .ok (-Real.sqrt (m.velocidad_inicial ^ 2 +
          2 * m.aceleracion_inicial * (p - m.posicion_inicial)))) ∧
    (∀ v : ℝ, m.velocidad_sin_tiempo p = .ok v →
      v ^ 2 = m.velocidad_inicial ^ 2 +
        2 * m.aceleracion_inicial * (p - m.posicion_inicial)) := by
  set v2 := m.velocidad_inicial ^ 2 +
    2 * m.aceleracion_inicial * (p - m.posicion_inicial) with hv2
  set sg := m.velocidad_inicial + m.aceleracion_inicial * (p - m.posicion_inicial) with hsg
  refine ⟨?_, ?_, ?_, ?_⟩
  · intro h
    simp only [MRUV.velocidad_sin_tiempo, ← hv2, ← hsg]
    rw [if_pos h]
  · intro h1 h2
    simp only [MRUV.velocidad_sin_tiempo, ← hv2, ← hsg]
    rw [if_neg (not_lt.mpr h1), if_pos h2, mul_one]
  · intro h1 h2
    simp only [MRUV.velocidad_sin_tiempo, ← hv2, ← hsg]
    rw [if_neg (not_lt.mpr h1), if_neg (not_le.mpr h2)]
    ring_nf
  · intro v hv
    simp only [MRUV.velocidad_sin_tiempo, ← hv2, ← hsg] at hv
    by_cases h1 : v2 < 0
    · rw [if_pos h1] at hv
      exact absurd hv (by simp)
    · rw [if_neg h1] at hv
      have h1' : 0 ≤ v2 := not_lt.mp h1
      by_cases h2 : sg ≥ 0
      · rw [if_pos h2, mul_one] at hv
        have hv' : v = Real.sqrt v2 := by injection hv with h; exact h.symm
        rw [hv', Real.sq_sqrt h1']
      · rw [if_neg h2] at hv
        have hv' : v = -Real.sqrt v2 := by
          injection hv with h
          rw [← h]; ring
        rw [hv', neg_pow, Real.sq_sqrt h1']
        norm_num

/-- C3 witness: `x0 = 0, v0 = 0, a = 2`, target position `16`:
`v² = 64 ≥ 0`, sign term `32 ≥ 0`, result `√64 = 8`. -/
theorem mruv_velocidad_sin_tiempo_witness :
    MRUV.velocidad_sin_tiempo ⟨0, 0, 2⟩ 16 = .ok 8 := by
  have h := (mruv_velocidad_sin_tiempo_spec ⟨0, 0, 2⟩ 16).2.1 (by norm_num) (by norm_num)
  rw [h]
  norm_num
  rw [show (64:ℝ) = 8 ^ 2 by norm_num, Real.sqrt_sq (by norm_num : (0:ℝ) ≤ 8)]

/-- Quadratic roots with `s = √D`: for `a ≠ 0` and `s² = v0² + 2a·Δx`,
`½a·t² + v0·t − Δx = 0` iff `t` is one of the two quadratic-formula roots. -/
lemma quad_root_iff (a v0 dx s t : ℝ) (ha : a ≠ 0)
    (hs : s ^ 2 = v0 ^ 2 + 2 * a * dx) :
    0.5 * a * t ^ 2 + v0 * t - dx = 0 ↔
      t = (-v0 - s) / a ∨ t = (-v0 + s) / a := by
  have key : 2 * a * (0.5 * a * t ^ 2 + v0 * t - dx) =
      (t * a + v0 + s) * (t * a + v0 - s) := by linear_combination hs
  constructor
  · intro h
    have h2 : (t * a + v0 + s) * (t * a + v0 - s) = 0 := by rw [← key, h, mul_zero]
    rcases mul_eq_zero.mp h2 with h3 | h3
    · left; rw [eq_div_iff ha]; linarith
    · right; rw [eq_div_iff ha]; linarith
  · intro h
    have h2 : (t * a + v0 + s) * (t * a + v0 - s) = 0 := by
      rcases h with h3 | h3
      · rw [eq_div_iff ha] at h3
        exact mul_eq_zero.mpr (Or.inl (by linarith))
      · rw [eq_div_iff ha] at h3
        exact mul_eq_zero.mpr (Or.inr (by linarith))
    have h4 : 2 * a * (0.5 * a * t ^ 2 + v0 * t - dx) = 0 := by rw [key, h2]
    rcases mul_eq_zero.mp h4 with h5 | h5
    · exact absurd h5 (by simp [ha])
    · exact h5

/-- Modelled from the spec: the root list of the quadratic branch of
`tiempo_por_posicion` (`time_for_position`, §4.7) — the method is called
by the repository's tests and usage examples but is absent from the
`MovimientoRectilineoUniformementeVariado` class in `src/`.  The one or
two real roots of `½a·t² + v0·t − Δx = 0`, deduplicated, sorted
ascending, filtered to roots `≥ 0`. -/
noncomputable def MRUV.solucionesCuadraticas (m : MRUV) (objetivo : ℝ) : List ℝ :=
  let d := m.velocidad_inicial ^ 2 +
    2 * m.aceleracion_inicial * (objetivo - m.posicion_inicial)
  let r1 := (-m.velocidad_inicial - Real.sqrt d) / m.aceleracion_inicial
  let r2 := (-m.velocidad_inicial + Real.sqrt d) / m.aceleracion_inicial
  let lo := min r1 r2
  let hi := max r1 r2
  (if lo = hi then [lo] else [lo, hi]).filter (fun t => 0 ≤ t)

/-- Modelled from the spec: `tiempo_por_posicion` (`time_for_position`,
§4.7) — absent from the class in `src/`, reconstructed from the spec's
branch description.  Linear branch when `a = 0` (with `Unreachable` for
the fixed-point degenerate case), quadratic branch otherwise:
`NoRealSolution` when the discriminant is negative, else the
nonnegative, deduplicated, ascending roots, `NegativeTime` when that
set is empty. -/
noncomputable def MRUV.tiempo_por_posicion (m : MRUV) (objetivo : ℝ) : Except Err (List ℝ) :=
  if m.aceleracion_inicial = 0 then
    if m.velocidad_inicial = 0 then
      if objetivo - m.posicion_inicial = 0 then .ok [0] else .error .unreachable
    else
      if (objetivo - m.posicion_inicial) / m.velocidad_inicial < 0 then .error .negativeTime
      else .ok [(objetivo - m.posicion_inicial) / m.velocidad_inicial]
  else
    if m.velocidad_inicial ^ 2 +
        2 * m.aceleracion_inicial * (objetivo - m.posicion_inicial) < 0 then
      .error .noRealSolution
    else
      if m.solucionesCuadraticas objetivo = [] then .error .negativeTime
      else .ok (m.solucionesCuadraticas objetivo)

/-- Membership in the quadratic-branch root list: exactly the
quadratic-formula roots that are nonnegative. -/
lemma mem_solucionesCuadraticas (m : MRUV) (objetivo t : ℝ) :
    t ∈ m.solucionesCuadraticas objetivo ↔
      ((t = (-m.velocidad_inicial - Real.sqrt (m.velocidad_inicial ^ 2 +
          2 * m.aceleracion_inicial * (objetivo - m.posicion_inicial))) /
            m.aceleracion_inicial ∨
        t = (-m.velocidad_inicial + Real.sqrt (m.velocidad_inicial ^ 2 +
          2 * m.aceleracion_inicial * (objetivo - m.posicion_inicial))) /
            m.aceleracion_inicial) ∧ 0 ≤ t) := by
  unfold MRUV.solucionesCuadraticas
  simp only [List.mem_filter, decide_eq_true_eq]
  set r1 := (-m.velocidad_inicial - Real.sqrt (m.velocidad_inicial ^ 2 +
    2 * m.aceleracion_inicial * (objetivo - m.posicion_inicial))) / m.aceleracion_inicial
  set r2 := (-m.velocidad_inicial + Real.sqrt (m.velocidad_inicial ^ 2 +
    2 * m.aceleracion_inicial * (objetivo - m.posicion_inicial))) / m.aceleracion_inicial
  have hset : t ∈ (if min r1 r2 = max r1 r2 then [min r1 r2] else [min r1 r2, max r1 r2]) ↔
      (t = r1 ∨ t = r2) := by
    by_cases hmm : min r1 r2 = max r1 r2
    · rw [if_pos hmm]
      have heq : r1 = r2 := by
        rcases le_total r1 r2 with h | h
        · rw [min_eq_left h, max_eq_right h] at hmm; exact hmm
        · rw [min_eq_right h, max_eq_left h] at hmm; exact hmm.symm
      simp [heq]
    · rw [if_neg hmm]
      simp only [List.mem_cons, List.mem_singleton, List.not_mem_nil, or_false]
      rcases le_total r1 r2 with h | h
      · rw [min_eq_left h, max_eq_right h]
      · rw [min_eq_right h, max_eq_left h]; tauto
  rw [hset]

/-- A min/max pair list, filtered, is strictly sorted. -/
lemma sorted_pair_filter (x y : ℝ) (p : ℝ → Bool) :
    ((if min x y = max x y then [min x y] else [min x y, max x y]).filter p).Sorted
      (· < ·) := by
  apply List.Pairwise.sublist (List.filter_sublist _)
  by_cases hmm : min x y = max x y
  · rw [if_pos hmm]
    exact List.pairwise_singleton _ _
  · rw [if_neg hmm]
    exact List.pairwise_pair.mpr (lt_of_le_of_ne min_le_max hmm)

/-- The quadratic-branch root list is strictly sorted (ascending, no
duplicates). -/
lemma sorted_solucionesCuadraticas (m : MRUV) (objetivo : ℝ) :
    (m.solucionesCuadraticas objetivo).Sorted (· < ·) := by
  unfold MRUV.solucionesCuadraticas
  exact sorted_pair_filter _ _ _

/-- C1: for the accelerated variant with `a ≠ 0`, `tiempo_por_posicion`
fails `NoRealSolution` exactly when the discriminant
`D = v0² + 2a·Δx` is negative; every successful result is a nonempty
strictly ascending list of nonnegative roots of `½a·t² + v0·t − Δx = 0`,
each mapped back to the target by `posicion`; the list contains every
nonnegative root; and it fails `NegativeTime` exactly when `D ≥ 0` but
every real root is negative. -/
theorem mruv_tiempo_por_posicion_spec (m : MRUV) (objetivo : ℝ)
    (ha : m.aceleracion_inicial ≠ 0) :
    (m.tiempo_por_posicion objetivo = .error .noRealSolution ↔
      m.velocidad_inicial ^ 2 +
        2 * m.aceleracion_inicial * (objetivo - m.posicion_inicial) < 0) ∧
    (∀ l, m.tiempo_por_posicion objetivo = .ok l →
      l ≠ [] ∧ l.Sorted (· < ·) ∧
      ∀ t ∈ l, 0 ≤ t ∧
        0.5 * m.aceleracion_inicial * t ^ 2 + m.velocidad_inicial * t -
          (objetivo - m.posicion_inicial) = 0 ∧
        m.posicion t = .ok objetivo) ∧
    (∀ l, m.tiempo_por_posicion objetivo = .ok l → ∀ t, 0 ≤ t →
      0.5 * m.aceleracion_inicial * t ^ 2 + m.velocidad_inicial * t -
        (objetivo - m.posicion_inicial) = 0 → t ∈ l) ∧
    (m.tiempo_por_posicion objetivo = .error .negativeTime ↔
      (0 ≤ m.velocidad_inicial ^ 2 +
          2 * m.aceleracion_inicial * (objetivo - m.posicion_inicial) ∧
        ∀ t, 0.5 * m.aceleracion_inicial * t ^ 2 + m.velocidad_inicial * t -
          (objetivo - m.posicion_inicial) = 0 → t < 0)) := by
  by_cases hd : m.velocidad_inicial ^ 2 +
      2 * m.aceleracion_inicial * (objetivo - m.posicion_inicial) < 0
  · have htpp : m.tiempo_por_posicion objetivo = .error .noRealSolution := by
      unfold MRUV.tiempo_por_posicion
      rw [if_neg ha, if_pos hd]
    refine ⟨⟨fun _ => hd, fun _ => htpp⟩, ?_, ?_, ?_⟩
    · intro l hl
      rw [htpp] at hl
      exact absurd hl (by simp)
    · intro l hl
      rw [htpp] at hl
      exact absurd hl (by simp)
    · constructor
      · intro h
        rw [htpp] at h
        exact absurd h (by simp)
      · intro h
        exact absurd h.1 (not_le.mpr hd)
  · have hd' : 0 ≤ m.velocidad_inicial ^ 2 +
        2 * m.aceleracion_inicial * (objetivo - m.posicion_inicial) := not_lt.mp hd
    have hroot : ∀ t : ℝ,
        (0.5 * m.aceleracion_inicial * t ^ 2 + m.velocidad_inicial * t -
            (objetivo - m.posicion_inicial) = 0 ↔
          t = (-m.velocidad_inicial - Real.sqrt (m.velocidad_inicial ^ 2 +
              2 * m.aceleracion_inicial * (objetivo - m.posicion_inicial))) /
              m.aceleracion_inicial ∨
          t = (-m.velocidad_inicial + Real.sqrt (m.velocidad_inicial ^ 2 +
              2 * m.aceleracion_inicial * (objetivo - m.posicion_inicial))) /
              m.aceleracion_inicial) :=
      fun t => quad_root_iff m.aceleracion_inicial m.velocidad_inicial
        (objetivo - m.posicion_inicial) _ t ha (Real.sq_sqrt hd')
    have hmem := mem_solucionesCuadraticas m objetivo
    have htpp : m.tiempo_por_posicion objetivo =
        (if m.solucionesCuadraticas objetivo = [] then .error .negativeTime
          else .ok (m.solucionesCuadraticas objetivo)) := by
      unfold MRUV.tiempo_por_posicion
      rw [if_neg ha, if_neg hd]
    by_cases hnil : m.solucionesCuadraticas objetivo = []
    · have htpp' : m.tiempo_por_posicion objetivo = .error .negativeTime := by
        rw [htpp, if_pos hnil]
      have hneg : ∀ t : ℝ, 0.5 * m.aceleracion_inicial * t ^ 2 +
          m.velocidad_inicial * t - (objetivo - m.posicion_inicial) = 0 → t < 0 := by
        intro t hrt
        by_contra hge
        have ht : 0 ≤ t := not_lt.mp hge
        have : t ∈ m.solucionesCuadraticas objetivo :=
          (hmem t).mpr ⟨(hroot t).mp hrt, ht⟩
        rw [hnil] at this
        exact absurd this (List.not_mem_nil t)
      refine ⟨?_, ?_, ?_, ⟨fun _ => ⟨hd', hneg⟩, fun _ => htpp'⟩⟩
      · constructor
        · intro h
          rw [htpp'] at h
          exact absurd h (by simp)
        · intro h
          exact absurd h hd
      · intro l hl
        rw [htpp'] at hl
        exact absurd hl (by simp)
      · intro l hl
        rw [htpp'] at hl
        exact absurd hl (by simp)
    · have htpp' : m.tiempo_por_posicion objetivo =
          .ok (m.solucionesCuadraticas objetivo) := by
        rw [htpp, if_neg hnil]
      refine ⟨?_, ?_, ?_, ?_⟩
      · constructor
        · intro h
          rw [htpp'] at h
          exact absurd h (by simp)
        · intro h
          exact absurd h hd
      · intro l hl
        have hls : m.solucionesCuadraticas objetivo = l := by
          have := htpp'.symm.trans hl
          injection this
        subst hls
        refine ⟨hnil, sorted_solucionesCuadraticas m objetivo, ?_⟩
        intro t htl
        have h1 := (hmem t).mp htl
        have hrt := (hroot t).mpr h1.1
        refine ⟨h1.2, hrt, ?_⟩
        rw [MRUV.posicion, if_neg (not_lt.mpr h1.2)]
        exact congrArg Except.ok (by linarith)
      · intro l hl t ht hrt
        have hls : m.solucionesCuadraticas objetivo = l := by
          have := htpp'.symm.trans hl
          injection this
        subst hls
        exact (hmem t).mpr ⟨(hroot t).mp hrt, ht⟩
      · constructor
        · intro h
          rw [htpp'] at h
          exact absurd h (by simp)
        · intro h
          rcases List.exists_mem_of_ne_nil _ hnil with ⟨u, hu⟩
          have h1 := (hmem u).mp hu
          have hrt := (hroot u).mpr h1.1
          exact absurd (h.2 u hrt) (not_lt.mpr h1.2)

/-- C1 witness: the spec scenario `x0 = 0, v0 = 10, a = −2`,
`tiempo_por_posicion 24 = {4, 6}`, with the round-trip
`posicion 4 = 24` and `posicion 6 = 24` obtained from the main
theorem. -/
theorem mruv_tiempo_por_posicion_witness :
    MRUV.tiempo_por_posicion ⟨0, 10, -2⟩ 24 = .ok [4, 6] ∧
    MRUV.posicion ⟨0, 10, -2⟩ 4 = .ok 24 ∧
    MRUV.posicion ⟨0, 10, -2⟩ 6 = .ok 24 := by
  have h2 : Real.sqrt 4 = 2 := by
    rw [show (4:ℝ) = 2 ^ 2 by norm_num, Real.sqrt_sq (by norm_num : (0:ℝ) ≤ 2)]
  have hsols : MRUV.solucionesCuadraticas ⟨0, 10, -2⟩ 24 = [4, 6] := by
    unfold MRUV.solucionesCuadraticas
    norm_num [h2, min_def, max_def, List.filter]
  have htpp : MRUV.tiempo_por_posicion ⟨0, 10, -2⟩ 24 = .ok [4, 6] := by
    unfold MRUV.tiempo_por_posicion
    norm_num [hsols]
    simp
  have h := (mruv_tiempo_por_posicion_spec ⟨0, 10, -2⟩ 24 (by norm_num)).2.1
    [4, 6] htpp
  exact ⟨htpp, (h.2.2 4 (by simp)).2.2, (h.2.2 6 (by simp)).2.2⟩

/-- 2D Cartesian vector (returned as `np.array([x, y])` in the source). -/
structure Vec2 where
  x : ℝ
  y : ℝ

/-- Euclidean norm of a 2D vector. -/
noncomputable def Vec2.norm (v : Vec2) : ℝ :=
  Real.sqrt (v.x ^ 2 + v.y ^ 2)

/-- Dot product of two 2D vectors. -/
def Vec2.dot (v w : Vec2) : ℝ :=
  v.x * w.x + v.y * w.y

/-- `MovimientoCircularUniforme`: radius, initial angle, constant
angular velocity. -/
structure MCU where
  radio : ℝ
  posicion_angular_inicial : ℝ
  velocidad_angular_inicial : ℝ

/-- `MovimientoCircularUniforme.__init__`: rejects `radio ≤ 0`. -/
noncomputable def MCU.crear (radio posicion_angular_inicial velocidad_angular_inicial : ℝ) :
    Except Err MCU :=
  if radio ≤ 0 then .error .invalidInput
  else .ok ⟨radio, posicion_angular_inicial, velocidad_angular_inicial⟩

/-- `MovimientoCircularUniforme.posicion_angular`: raises when
`tiempo < 0`, else `θ0 + ω·t`. -/
noncomputable def MCU.posicion_angular (m : MCU) (tiempo : ℝ) : Except Err ℝ :=
  if tiempo < 0 then .error .invalidTime
  else .ok (m.posicion_angular_inicial + m.velocidad_angular_inicial * tiempo)

/-- `MovimientoCircularUniforme.posicion`: raises when `tiempo < 0`, else
`(R·cosθ, R·sinθ)` with `θ` from `posicion_angular`. -/
noncomputable def MCU.posicion (m : MCU) (tiempo : ℝ) : Except Err Vec2 :=
  if tiempo < 0 then .error .invalidTime
  else (m.posicion_angular tiempo).map fun theta =>
    ⟨m.radio * Real.cos theta, m.radio * Real.sin theta⟩

/-- `MovimientoCircularUniforme.velocidad`: raises when `tiempo < 0`,
else `(−ω·R·sinθ, ω·R·cosθ)`. -/
noncomputable def MCU.velocidad (m : MCU) (tiempo : ℝ) : Except Err Vec2 :=
  if tiempo < 0 then .error .invalidTime
  else (m.posicion_angular tiempo).map fun theta =>
    ⟨-m.velocidad_angular_inicial * m.radio * Real.sin theta,
      m.velocidad_angular_inicial * m.radio * Real.cos theta⟩

/-- `MovimientoCircularUniformementeVariado`: radius, initial angle,
initial angular velocity, constant angular acceleration. -/
structure MCUV where
  radio : ℝ
  posicion_angular_inicial : ℝ
  velocidad_angular_inicial : ℝ
  aceleracion_angular_inicial : ℝ

/-- `MovimientoCircularUniformementeVariado.__init__`: rejects
`radio ≤ 0`. -/
noncomputable def MCUV.crear (radio posicion_angular_inicial velocidad_angular_inicial
    aceleracion_angular_inicial : ℝ) : Except Err MCUV :=
  if radio ≤ 0 then .error .invalidInput
  else .ok ⟨radio, posicion_angular_inicial, velocidad_angular_inicial,
    aceleracion_angular_inicial⟩

/-- `MovimientoCircularUniformementeVariado.posicion_angular` (effective
later definition): raises when `tiempo < 0`, else
`θ0 + ω0·t + 0.5·α·t²`. -/
noncomputable def MCUV.posicion_angular (m : MCUV) (tiempo : ℝ) : Except Err ℝ :=
  if tiempo < 0 then .error .invalidTime
  else .ok (m.posicion_angular_inicial + m.velocidad_angular_inicial * tiempo +
    0.5 * m.aceleracion_angular_inicial * tiempo ^ 2)

/-- `MovimientoCircularUniformementeVariado.velocidad_angular` (effective
later definition): raises when `tiempo < 0`, else `ω0 + α·t`. -/
noncomputable def MCUV.velocidad_angular (m : MCUV) (tiempo : ℝ) : Except Err ℝ :=
  if tiempo < 0 then .error .invalidTime
  else .ok (m.velocidad_angular_inicial + m.aceleracion_angular_inicial * tiempo)

/-- `MovimientoCircularUniformementeVariado.aceleracion_tangencial`:
`α·R`, no time check. -/
def MCUV.aceleracion_tangencial (m : MCUV) : ℝ :=
  m.aceleracion_angular_inicial * m.radio

/-- `MovimientoCircularUniformementeVariado.aceleracion_centripeta`:
`ω(t)²·R` through the (time-checked) `velocidad_angular`. -/
noncomputable def MCUV.aceleracion_centripeta (m : MCUV) (tiempo : ℝ) : Except Err ℝ :=
  (m.velocidad_angular tiempo).map fun omega => omega ^ 2 * m.radio

/-- `MovimientoCircularUniformementeVariado.aceleracion_total`:
`√(a_t² + a_n²)`. -/
noncomputable def MCUV.aceleracion_total (m : MCUV) (tiempo : ℝ) : Except Err ℝ :=
  (m.aceleracion_centripeta tiempo).map fun an =>
    Real.sqrt (m.aceleracion_tangencial ^ 2 + an ^ 2)

/-- `MovimientoCircularUniformementeVariado.posicion` (effective later
definition): raises when `tiempo < 0`, else `(R·cosθ, R·sinθ)`. -/
noncomputable def MCUV.posicion (m : MCUV) (tiempo : ℝ) : Except Err Vec2 :=
  if tiempo < 0 then .error .invalidTime
  else (m.posicion_angular tiempo).map fun theta =>
    ⟨m.radio * Real.cos theta, m.radio * Real.sin theta⟩

/-- `MovimientoCircularUniformementeVariado.aceleracion` (effective later
definition): raises when `tiempo < 0`, else tangential plus centripetal
components resolved along `cosθ`/`sinθ`. -/
noncomputable def MCUV.aceleracion (m : MCUV) (tiempo : ℝ) : Except Err Vec2 :=
  if tiempo < 0 then .error .invalidTime
  else (m.posicion_angular tiempo).map fun theta =>
    ⟨-m.aceleracion_angular_inicial * m.radio * Real.sin theta +
        -((m.velocidad_angular_inicial + m.aceleracion_angular_inicial * tiempo) ^ 2) *
          m.radio * Real.cos theta,
      m.aceleracion_angular_inicial * m.radio * Real.cos theta +
        -((m.velocidad_angular_inicial + m.aceleracion_angular_inicial * tiempo) ^ 2) *
          m.radio * Real.sin theta⟩

/-- C6: for either circular variant built with positive radius, the norm
of the Cartesian position vector equals the radius at every accepted
(nonnegative) time; exact in the real-number embedding, hence within any
floating tolerance. -/
theorem circular_norm_radius (m : MCU) (m2 : MCUV) (t : ℝ)
    (hr : 0 < m.radio) (hr2 : 0 < m2.radio) :
    (∀ p, m.posicion t = .ok p → p.norm = m.radio) ∧
    (∀ p, m2.posicion t = .ok p → p.norm = m2.radio) := by
  constructor
  · intro p hp
    rw [MCU.posicion] at hp
    by_cases ht : t < 0
    · rw [if_pos ht] at hp
      exact absurd hp (by simp)
    · rw [if_neg ht, MCU.posicion_angular, if_neg ht] at hp
      simp only [Except.map] at hp
      have hp' : p = ⟨m.radio * Real.cos (m.posicion_angular_inicial +
          m.velocidad_angular_inicial * t),
          m.radio * Real.sin (m.posicion_angular_inicial +
          m.velocidad_angular_inicial * t)⟩ := by
        injection hp with h
        exact h.symm
      subst hp'
      rw [Vec2.norm]
      have harg : (m.radio * Real.cos (m.posicion_angular_inicial +
          m.velocidad_angular_inicial * t)) ^ 2 +
          (m.radio * Real.sin (m.posicion_angular_inicial +
          m.velocidad_angular_inicial * t)) ^ 2 = m.radio ^ 2 := by
        linear_combination m.radio ^ 2 *
          Real.cos_sq_add_sin_sq (m.posicion_angular_inicial +
            m.velocidad_angular_inicial * t)
      rw [harg, Real.sqrt_sq hr.le]
  · intro p hp
    rw [MCUV.posicion] at hp
    by_cases ht : t < 0
    · rw [if_pos ht] at hp
      exact absurd hp (by simp)
    · rw [if_neg ht, MCUV.posicion_angular, if_neg ht] at hp
      simp only [Except.map] at hp
      have hp' : p = ⟨m2.radio * Real.cos (m2.posicion_angular_inicial +
          m2.velocidad_angular_inicial * t +
          0.5 * m2.aceleracion_angular_inicial * t ^ 2),
          m2.radio * Real.sin (m2.posicion_angular_inicial +
          m2.velocidad_angular_inicial * t +
          0.5 * m2.aceleracion_angular_inicial * t ^ 2)⟩ := by
        injection hp with h
        exact h.symm
      subst hp'
      rw [Vec2.norm]
      have harg : (m2.radio * Real.cos (m2.posicion_angular_inicial +
          m2.velocidad_angular_inicial * t +
          0.5 * m2.aceleracion_angular_inicial * t ^ 2)) ^ 2 +
          (m2.radio * Real.sin (m2.posicion_angular_inicial +
          m2.velocidad_angular_inicial * t +
          0.5 * m2.aceleracion_angular_inicial * t ^ 2)) ^ 2 = m2.radio ^ 2 := by
        linear_combination m2.radio ^ 2 *
          Real.cos_sq_add_sin_sq (m2.posicion_angular_inicial +
            m2.velocidad_angular_inicial * t +
            0.5 * m2.aceleracion_angular_inicial * t ^ 2)
      rw [harg, Real.sqrt_sq hr2.le]

/-- C6 witness: unit circle instances of both variants evaluated at
`t = 0` have position vectors of norm `1`. -/
theorem circular_norm_radius_witness :
    Vec2.norm ⟨1 * Real.cos (0 + 0 * 0), 1 * Real.sin (0 + 0 * 0)⟩ = 1 ∧
    Vec2.norm ⟨1 * Real.cos (0 + 0 * 0 + 0.5 * 0 * 0 ^ 2),
      1 * Real.sin (0 + 0 * 0 + 0.5 * 0 * 0 ^ 2)⟩ = 1 := by
  have h := circular_norm_radius ⟨1, 0, 0⟩ ⟨1, 0, 0, 0⟩ 0 (by norm_num) (by norm_num)
  constructor
  · refine h.1 _ ?_
    rw [MCU.posicion, if_neg (by norm_num : ¬(0:ℝ) < 0), MCU.posicion_angular,
      if_neg (by norm_num : ¬(0:ℝ) < 0)]
    rfl
  · refine h.2 _ ?_
    rw [MCUV.posicion, if_neg (by norm_num : ¬(0:ℝ) < 0), MCUV.posicion_angular,
      if_neg (by norm_num : ¬(0:ℝ) < 0)]
    rfl

/-- C7: for Circular-Uniform motion, whenever `posicion` and `velocidad`
both return vectors at the same time, their dot product is zero — the
velocity is perpendicular to the position. -/
theorem mcu_perpendicular (m : MCU) (t : ℝ) (p v : Vec2)
    (hp : m.posicion t = .ok p) (hv : m.velocidad t = .ok v) :
    p.dot v = 0 := by
  rw [MCU.posicion] at hp
  rw [MCU.velocidad] at hv
  by_cases ht : t < 0
  · rw [if_pos ht] at hp
    exact absurd hp (by simp)
  · rw [if_neg ht, MCU.posicion_angular, if_neg ht] at hp
    rw [if_neg ht, MCU.posicion_angular, if_neg ht] at hv
    simp only [Except.map] at hp hv
    have hp' : p = ⟨m.radio * Real.cos (m.posicion_angular_inicial +
        m.velocidad_angular_inicial * t),
        m.radio * Real.sin (m.posicion_angular_inicial +
        m.velocidad_angular_inicial * t)⟩ := by
      injection hp with h
      exact h.symm
    have hv' : v = ⟨-m.velocidad_angular_inicial * m.radio *
        Real.sin (m.posicion_angular_inicial + m.velocidad_angular_inicial * t),
        m.velocidad_angular_inicial * m.radio *
        Real.cos (m.posicion_angular_inicial + m.velocidad_angular_inicial * t)⟩ := by
      injection hv with h
      exact h.symm
    subst hp' hv'
    rw [Vec2.dot]
    ring

/-- C7 witness: unit circle with `ω = 1` at `t = 0`. -/
theorem mcu_perpendicular_witness :
    Vec2.dot ⟨1 * Real.cos (0 + 1 * 0), 1 * Real.sin (0 + 1 * 0)⟩
      ⟨-1 * 1 * Real.sin (0 + 1 * 0), 1 * 1 * Real.cos (0 + 1 * 0)⟩ = 0 := by
  refine mcu_perpendicular ⟨1, 0, 1⟩ 0 _ _ ?_ ?_
  · rw [MCU.posicion, if_neg (by norm_num : ¬(0:ℝ) < 0), MCU.posicion_angular,
      if_neg (by norm_num : ¬(0:ℝ) < 0)]
    rfl
  · rw [MCU.velocidad, if_neg (by norm_num : ¬(0:ℝ) < 0), MCU.posicion_angular,
      if_neg (by norm_num : ¬(0:ℝ) < 0)]
    rfl

/-- C10: for the accelerated circular variant, whenever the Cartesian
`aceleracion` vector and the scalar `aceleracion_total` both evaluate at
the same time, the Euclidean norm of the vector equals the scalar
`√(a_t² + a_c(t)²)`. -/
theorem mcuv_aceleracion_norm (m : MCUV) (t : ℝ) (av : Vec2) (s : ℝ)
    (hav : m.aceleracion t = .ok av) (hs : m.aceleracion_total t = .ok s) :
    av.norm = s := by
  by_cases ht : t < 0
  · rw [MCUV.aceleracion, if_pos ht] at hav
    exact absurd hav (by simp)
  · rw [MCUV.aceleracion, if_neg ht, MCUV.posicion_angular, if_neg ht] at hav
    simp only [Except.map] at hav
    rw [MCUV.aceleracion_total, MCUV.aceleracion_centripeta, MCUV.velocidad_angular,
      if_neg ht] at hs
    simp only [Except.map] at hs
    have hav' : av = ⟨-m.aceleracion_angular_inicial * m.radio *
        Real.sin (m.posicion_angular_inicial + m.velocidad_angular_inicial * t +
          0.5 * m.aceleracion_angular_inicial * t ^ 2) +
        -((m.velocidad_angular_inicial + m.aceleracion_angular_inicial * t) ^ 2) *
          m.radio * Real.cos (m.posicion_angular_inicial +
            m.velocidad_angular_inicial * t +
            0.5 * m.aceleracion_angular_inicial * t ^ 2),
        m.aceleracion_angular_inicial * m.radio *
        Real.cos (m.posicion_angular_inicial + m.velocidad_angular_inicial * t +
          0.5 * m.aceleracion_angular_inicial * t ^ 2) +
        -((m.velocidad_angular_inicial + m.aceleracion_angular_inicial * t) ^ 2) *
          m.radio * Real.sin (m.posicion_angular_inicial +
            m.velocidad_angular_inicial * t +
            0.5 * m.aceleracion_angular_inicial * t ^ 2)⟩ := by
      injection hav with h
      exact h.symm
    have hs' : s = Real.sqrt (m.aceleracion_tangencial ^ 2 +
        ((m.velocidad_angular_inicial + m.aceleracion_angular_inicial * t) ^ 2 *
          m.radio) ^ 2) := by
      injection hs with h
      exact h.symm
    subst hav' hs'
    rw [Vec2.norm, MCUV.aceleracion_tangencial]
    congr 1
    linear_combination (m.aceleracion_angular_inicial ^ 2 * m.radio ^ 2 +
        (m.velocidad_angular_inicial + m.aceleracion_angular_inicial * t) ^ 4 *
          m.radio ^ 2) *
      Real.cos_sq_add_sin_sq (m.posicion_angular_inicial +
        m.velocidad_angular_inicial * t + 0.5 * m.aceleracion_angular_inicial * t ^ 2)

/-- C10 witness: radius `1`, `ω0 = 1`, `α = 0`, at `t = 0`: the
acceleration vector has norm `√(a_t² + a_c²)`, which evaluates to `1`. -/
theorem mcuv_aceleracion_norm_witness :
    Vec2.norm ⟨-0 * 1 * Real.sin (0 + 1 * 0 + 0.5 * 0 * 0 ^ 2) +
        -((1 + 0 * 0) ^ 2) * 1 * Real.cos (0 + 1 * 0 + 0.5 * 0 * 0 ^ 2),
      0 * 1 * Real.cos (0 + 1 * 0 + 0.5 * 0 * 0 ^ 2) +
        -((1 + 0 * 0) ^ 2) * 1 * Real.sin (0 + 1 * 0 + 0.5 * 0 * 0 ^ 2)⟩ =
      Real.sqrt ((0 * 1) ^ 2 + ((1 + 0 * 0) ^ 2 * 1) ^ 2) ∧
    Real.sqrt ((0 * 1) ^ 2 + ((1 + 0 * 0) ^ 2 * 1) ^ 2) = 1 := by
  constructor
  · refine mcuv_aceleracion_norm ⟨1, 0, 1, 0⟩ 0 _ _ ?_ ?_
    · rw [MCUV.aceleracion, if_neg (by norm_num : ¬(0:ℝ) < 0),
        MCUV.posicion_angular, if_neg (by norm_num : ¬(0:ℝ) < 0)]
      rfl
    · rw [MCUV.aceleracion_total, MCUV.aceleracion_centripeta,
        MCUV.velocidad_angular, if_neg (by norm_num : ¬(0:ℝ) < 0)]
      rfl
  · rw [show ((0:ℝ) * 1) ^ 2 + ((1 + 0 * 0) ^ 2 * 1) ^ 2 = 1 by norm_num]
    exact Real.sqrt_one

/-- 3D vector (returned as `np.array([x, y, z])` in the source). -/
structure Vec3 where
  x : ℝ
  y : ℝ
  z : ℝ

/-- `MovimientoEspacial`: initial position and velocity vectors plus a
constant acceleration vector (3-component, per the constructor check). -/
structure MovimientoEspacial where
  posicion_inicial : Vec3
  velocidad_inicial : Vec3
  aceleracion_constante : Vec3

/-- `MovimientoEspacial.posicion`: raises when `tiempo < 0`, else
`r0 + v0·t + 0.5·a·t²` componentwise. -/
noncomputable def MovimientoEspacial.posicion (m : MovimientoEspacial) (tiempo : ℝ) :
    Except Err Vec3 :=
  if tiempo < 0 then .error .invalidTime
  else .ok ⟨m.posicion_inicial.x + m.velocidad_inicial.x * tiempo +
      0.5 * m.aceleracion_constante.x * tiempo ^ 2,
    m.posicion_inicial.y + m.velocidad_inicial.y * tiempo +
      0.5 * m.aceleracion_constante.y * tiempo ^ 2,
    m.posicion_inicial.z + m.velocidad_inicial.z * tiempo +
      0.5 * m.aceleracion_constante.z * tiempo ^ 2⟩

/-- `MovimientoEspacial.velocidad`: raises when `tiempo < 0`, else
`v0 + a·t` componentwise. -/
noncomputable def MovimientoEspacial.velocidad (m : MovimientoEspacial) (tiempo : ℝ) :
    Except Err Vec3 :=
  if tiempo < 0 then .error .invalidTime
  else .ok ⟨m.velocidad_inicial.x + m.aceleracion_constante.x * tiempo,
    m.velocidad_inicial.y + m.aceleracion_constante.y * tiempo,
    m.velocidad_inicial.z + m.aceleracion_constante.z * tiempo⟩

/-- `MovimientoEspacial.aceleracion`: returns the stored constant vector
with no time validation at all. -/
def MovimientoEspacial.aceleracion (m : MovimientoEspacial) (_tiempo : ℝ) : Vec3 :=
  m.aceleracion_constante

/-- C9: the spatial variant raises on any negative time in `posicion`
and `velocidad` (and succeeds on nonnegative time), while `aceleracion`
performs no time validation and returns the stored constant vector for
every time, negative times included — an asymmetric negative-time policy
inside one variant. -/
theorem espacial_time_policy (m : MovimientoEspacial) (s t : ℝ)
    (hs : s < 0) (ht : 0 ≤ t) :
    m.posicion s = .error .invalidTime ∧
    m.velocidad s = .error .invalidTime ∧
    (m.posicion t).isOk = true ∧
    (m.velocidad t).isOk = true ∧
    (∀ u : ℝ, m.aceleracion u = m.aceleracion_constante) ∧
    m.aceleracion s = m.aceleracion_constante := by
  have ht' : ¬ t < 0 := not_lt.mpr ht
  refine ⟨?_, ?_, ?_, ?_, fun u => rfl, rfl⟩
  · rw [MovimientoEspacial.posicion, if_pos hs]
  · rw [MovimientoEspacial.velocidad, if_pos hs]
  · rw [MovimientoEspacial.posicion, if_neg ht']
    rfl
  · rw [MovimientoEspacial.velocidad, if_neg ht']
    rfl

/-- C9 witness: concrete instance evaluated at `s = -1` and `t = 0`. -/
theorem espacial_time_policy_witness :
    MovimientoEspacial.posicion ⟨⟨1, 2, 3⟩, ⟨4, 5, 6⟩, ⟨7, 8, 9⟩⟩ (-1) =
      .error .invalidTime ∧
    MovimientoEspacial.aceleracion ⟨⟨1, 2, 3⟩, ⟨4, 5, 6⟩, ⟨7, 8, 9⟩⟩ (-1) =
      ⟨7, 8, 9⟩ := by
  have h := espacial_time_policy ⟨⟨1, 2, 3⟩, ⟨4, 5, 6⟩, ⟨7, 8, 9⟩⟩ (-1) 0
    (by norm_num) (by norm_num)
  exact ⟨h.1, h.2.2.2.2.2⟩

/-- A simple-harmonic component: amplitude, angular frequency, initial
phase (the three required numeric fields of each dict in
`mas_components`). -/
structure MASComponent where
  amplitud : ℝ
  frecuencia_angular : ℝ
  fase_inicial : ℝ

/-- A raw constructor argument for one component: each of the three
fields may be missing (absent dict key). -/
structure RawMASComponent where
  amplitud : Option ℝ
  frecuencia_angular : Option ℝ
  fase_inicial : Option ℝ

/-- Whether a raw component supplies all three required fields. -/
def RawMASComponent.completo (c : RawMASComponent) : Bool :=
  c.amplitud.isSome && c.frecuencia_angular.isSome && c.fase_inicial.isSome

/-- `MovimientoArmonicoComplejo.__init__` validation: the component list
must be non-empty and every component must supply `amplitud`,
`frecuencia_angular` and `fase_inicial`; otherwise `ValueError`. -/
def validarComponentes (l : List RawMASComponent) :
    Except Err (List MASComponent) :=
  if l.isEmpty then .error .invalidInput
  else if l.all (fun c => c.completo) then
    .ok (l.map fun c => ⟨c.amplitud.getD 0, c.frecuencia_angular.getD 0,
      c.fase_inicial.getD 0⟩)
  else .error .invalidInput

/-- `MovimientoArmonicoComplejo` after validation: the stored component
list. -/
structure MAC where
  mas_components : List MASComponent

/-- `MovimientoArmonicoComplejo.posicion`: loop accumulating
`A·cos(ω·t + φ)` over the components, starting from `0.0`. -/
noncomputable def MAC.posicion (m : MAC) (tiempo : ℝ) : ℝ :=
  m.mas_components.foldl (fun acc comp =>
    acc + comp.amplitud *
      Real.cos (comp.frecuencia_angular * tiempo + comp.fase_inicial)) 0.0

/-- `MovimientoArmonicoComplejo.velocidad`: loop accumulating
`−A·ω·sin(ω·t + φ)`, starting from `0.0`. -/
noncomputable def MAC.velocidad (m : MAC) (tiempo : ℝ) : ℝ :=
  m.mas_components.foldl (fun acc comp =>
    acc + -comp.amplitud * comp.frecuencia_angular *
      Real.sin (comp.frecuencia_angular * tiempo + comp.fase_inicial)) 0.0

/-- `MovimientoArmonicoComplejo.aceleracion`: loop accumulating
`−A·ω²·cos(ω·t + φ)`, starting from `0.0`. -/
noncomputable def MAC.aceleracion (m : MAC) (tiempo : ℝ) : ℝ :=
  m.mas_components.foldl (fun acc comp =>
    acc + -comp.amplitud * comp.frecuencia_angular ^ 2 *
      Real.cos (comp.frecuencia_angular * tiempo + comp.fase_inicial)) 0.0

/-- Accumulating fold over a list equals the initial value plus the sum
of the mapped contributions. -/
lemma foldl_add_eq_sum (l : List MASComponent) (f : MASComponent → ℝ) (init : ℝ) :
    l.foldl (fun acc comp => acc + f comp) init = init + (l.map f).sum := by
  induction l generalizing init with
  | nil => simp
  | cons hd tl ih =>
    simp only [List.foldl_cons, List.map_cons, List.sum_cons]
    rw [ih]
    ring

/-- C8: composite harmonic motion — construction fails on an empty list
or on any component missing one of the three fields, succeeds on a
non-empty list of complete components; and position, velocity and
acceleration are the sums over the components of `A·cos(ωt+φ)`,
`−A·ω·sin(ωt+φ)` and `−A·ω²·cos(ωt+φ)` respectively. -/
theorem mac_superposition :
    validarComponentes [] = .error .invalidInput ∧
    (∀ l : List RawMASComponent, (∃ c ∈ l, c.completo = false) →
      validarComponentes l = .error .invalidInput) ∧
    (∀ l : List RawMASComponent, l ≠ [] → (∀ c ∈ l, c.completo = true) →
      ∃ cs, validarComponentes l = .ok cs) ∧
    (∀ (m : MAC) (t : ℝ),
      m.posicion t = (m.mas_components.map fun c =>
        c.amplitud * Real.cos (c.frecuencia_angular * t + c.fase_inicial)).sum ∧
      m.velocidad t = (m.mas_components.map fun c =>
        -c.amplitud * c.frecuencia_angular *
          Real.sin (c.frecuencia_angular * t + c.fase_inicial)).sum ∧
      m.aceleracion t = (m.mas_components.map fun c =>
        -c.amplitud * c.frecuencia_angular ^ 2 *
          Real.cos (c.frecuencia_angular * t + c.fase_inicial)).sum) := by
  refine ⟨rfl, ?_, ?_, ?_⟩
  · rintro l ⟨c, hcl, hc⟩
    have h1 : l.isEmpty = false := by
      cases l with
      | nil => exact absurd hcl (List.not_mem_nil c)
      | cons a as => rfl
    cases hall : l.all (fun c => c.completo) with
    | false => simp [validarComponentes, h1, hall]
    | true =>
      have := List.all_eq_true.mp hall c hcl
      rw [hc] at this
      exact absurd this (by simp)
  · intro l hne hall'
    have h1 : l.isEmpty = false := by
      cases l with
      | nil => exact absurd rfl hne
      | cons a as => rfl
    have h2 : l.all (fun c => c.completo) = true := List.all_eq_true.mpr hall'
    refine ⟨l.map fun c => ⟨c.amplitud.getD 0, c.frecuencia_angular.getD 0,
      c.fase_inicial.getD 0⟩, ?_⟩
    simp [validarComponentes, h1, h2]
  · intro m t
    refine ⟨?_, ?_, ?_⟩
    · rw [MAC.posicion, foldl_add_eq_sum]
      norm_num
    · rw [MAC.velocidad, foldl_add_eq_sum]
      norm_num
    · rw [MAC.aceleracion, foldl_add_eq_sum]
      norm_num

/-- C8 witness: a component with a missing amplitude is rejected, a
complete single-component list is accepted, and the one-component
position is its single cosine contribution. -/
theorem mac_superposition_witness :
    validarComponentes [⟨none, some 1, some 2⟩] = .error .invalidInput ∧
    (validarComponentes [⟨some 1, some 2, some 3⟩]).isOk = true ∧
    MAC.posicion ⟨[⟨1, 2, 3⟩]⟩ 0 = 1 * Real.cos (2 * 0 + 3) := by
  refine ⟨mac_superposition.2.1 _ ⟨⟨none, some 1, some 2⟩, by simp, rfl⟩, ?_, ?_⟩
  · rcases mac_superposition.2.2.1 [⟨some 1, some 2, some 3⟩] (by simp)
      (by intro c hc; simp only [List.mem_singleton] at hc; rw [hc]; rfl) with ⟨cs, hcs⟩
    rw [hcs]
    rfl
  · have h := (mac_superposition.2.2.2 ⟨[⟨1, 2, 3⟩]⟩ 0).1
    rw [h]
    simp

/-- Modelled from the spec: the physical dimension of a quantity, as an
exponent vector over the base dimensions length, time and angle — the
dimensional-quantity layer (`cinetica.units`, providing `ureg` and `Q_`)
is imported by `cinetica/__init__.py` and used throughout the tests but
its module is absent from `src/`. -/
structure Dimension where
  longitud : ℤ
  tiempo : ℤ
  angulo : ℤ
deriving DecidableEq, Repr

/-- Modelled from the spec: error kinds of the dimensional-quantity
layer (§4.1). -/
inductive UnitsErr where
  | dimensionMismatch
  | unknownUnit
deriving DecidableEq, Repr

/-- Modelled from the spec: a quantity is a numeric magnitude paired
with a physical dimension (magnitudes over ℚ, exact). -/
structure Quantity where
  magnitud : ℚ
  dim : Dimension
deriving DecidableEq, Repr

/-- Modelled from the spec: addition requires identical dimension, else
`DimensionMismatch` — never a bare number. -/
def Quantity.add (q r : Quantity) : Except UnitsErr Quantity :=
  if q.dim = r.dim then .ok ⟨q.magnitud + r.magnitud, q.dim⟩
  else .error .dimensionMismatch

/-- Modelled from the spec: comparison requires identical dimension,
else `DimensionMismatch`. -/
def Quantity.menorQue (q r : Quantity) : Except UnitsErr Bool :=
  if q.dim = r.dim then .ok (decide (q.magnitud < r.magnitud))
  else .error .dimensionMismatch

/-- Modelled from the spec: resolving a unit token to its dimension;
an unrecognized token yields `UnknownUnit`. -/
def parseUnidad (token : String) : Except UnitsErr Dimension :=
  if token = "m" then .ok ⟨1, 0, 0⟩
  else if token = "s" then .ok ⟨0, 1, 0⟩
  else if token = "rad" then .ok ⟨0, 0, 1⟩
  else if token = "m/s" then .ok ⟨1, -1, 0⟩
  else if token = "m/s^2" then .ok ⟨1, -2, 0⟩
  else if token = "rad/s" then .ok ⟨0, -1, 1⟩
  else .error .unknownUnit

/-- C4: quantities of unlike dimension never combine into a number —
addition and comparison both fail with `DimensionMismatch` whenever the
dimensions differ (and only then), and a token outside the unit table
fails with `UnknownUnit`. -/
theorem units_dimension_checked (q r : Quantity) (h : q.dim ≠ r.dim) :
    Quantity.add q r = .error .dimensionMismatch ∧
    Quantity.menorQue q r = .error .dimensionMismatch ∧
    (∀ q' r' : Quantity, q'.dim = r'.dim →
      Quantity.add q' r' = .ok ⟨q'.magnitud + r'.magnitud, q'.dim⟩) ∧
    (∀ tok : String, (tok ∈ (["m", "s", "rad", "m/s", "m/s^2", "rad/s"] :
        List String)) = False →
      parseUnidad tok = .error .unknownUnit) := by
  refine ⟨?_, ?_, ?_, ?_⟩
  · rw [Quantity.add, if_neg h]
  · rw [Quantity.menorQue, if_neg h]
  · intro q' r' h'
    rw [Quantity.add, if_pos h']
  · intro tok htok
    have hm : ¬ tok ∈ (["m", "s", "rad", "m/s", "m/s^2", "rad/s"] : List String) := by
      rw [htok]
      exact id
    simp only [List.mem_cons, List.mem_singleton, not_or] at hm
    obtain ⟨h1, h2, h3, h4, h5, h6⟩ := hm
    rw [parseUnidad, if_neg h1, if_neg h2, if_neg h3, if_neg h4, if_neg h5]
    simp at h6
    rw [if_neg h6]

/-- C4 witness: `1 m + 1 s` is a `DimensionMismatch`, not a number, and
an unrecognized token is an `UnknownUnit`. -/
theorem units_dimension_checked_witness :
    Quantity.add ⟨1, ⟨1, 0, 0⟩⟩ ⟨1, ⟨0, 1, 0⟩⟩ = .error .dimensionMismatch ∧
    parseUnidad "furlong" = .error .unknownUnit := by
  have h := units_dimension_checked ⟨1, ⟨1, 0, 0⟩⟩ ⟨1, ⟨0, 1, 0⟩⟩ (by decide)
  exact ⟨h.1, h.2.2.2 "furlong" (by decide)⟩
